import Mathlib

/-!
Verification of the option-string parser (`src/lib.rs`).

The parser is embedded shallowly: the remaining input is a `List Char`
(Rust works on `&str` slices), the absolute position is a `Nat` counting
bytes from the start of the original input (Rust `usize`), and every rule
returns `Except ParseError (List Char × Nat × Output)`, mirroring the Rust
`ParseResult<'a, Output> = Result<(&'a str, usize, Output), ParseError>`.

The mutually recursive grammar rules (`value`, `list`, `object`,
`key_value_pair`, `key_value_pairs` and their two in-function loops) are
embedded with an explicit fuel argument (`valueF`, `listF`, ...); `none`
means the fuel ran out.  The adequacy theorem below shows fuel linear in
the input length always suffices, which is the termination argument for
the Rust functions.
-/

namespace OptionStringParsing

/-- `Value` from `src/lib.rs`: a parsed tree node.  Decoded string content
and keys are kept as `List Char` (Rust `String`). -/
inductive Value where
  | StringValue (s : List Char)
  | ListValue (items : List Value)
  | ObjectValue (pairs : List (List Char × Value))

/-- `ParseError` from `src/lib.rs`; each variant carries the absolute byte
offset it was constructed with. -/
inductive ParseError where
  | IdentifiersFirstCharacterNotAlphabetic (position : Nat)
  | PrematureEndOfText (position : Nat)
  | ExpectedLiteralNotFound (position : Nat) (expected : List Char)
  | UnknownEscapedSymbol (position : Nat) (c : Char)
  | NoValueFound (position : Nat)
  deriving DecidableEq

deriving instance DecidableEq for Except

/-- Byte length of a character sequence (Rust `str::len` / the byte indices
produced by `char_indices`). -/
def utf8Len (chars : List Char) : Nat :=
  (chars.map Char.utf8Size).sum

/-- Model of Rust `char::is_alphabetic`.  The Rust predicate is the Unicode
`Alphabetic` property; on the ASCII range (which covers every input the
grammar's own tests and the claims use) it coincides with `Char.isAlpha`. -/
def isAlphabetic (c : Char) : Bool := c.isAlpha

/-- Model of Rust `char::is_alphanumeric` (Unicode), restricted to its ASCII
behaviour. -/
def isAlphanumeric (c : Char) : Bool := c.isAlphanum

/-- Model of Rust `char::is_whitespace` (Unicode `White_Space`), restricted
to its ASCII behaviour (space, tab, carriage return, newline). -/
def isWhitespace (c : Char) : Bool := c.isWhitespace

/-- A character may continue an identifier (the predicate of the
`chars.find` call in `identifier`, negated). -/
def isIdentifierChar (c : Char) : Bool :=
  isAlphanumeric c || c = '-' || c = '_'

/-- Splits a character sequence at the first non-identifier character:
the first component is the consumed identifier span, the second is the
rest starting at the first non-identifier character (empty when
`chars.find` in the Rust code returns `None`). -/
def identSplit (chars : List Char) : List Char × List Char :=
  match chars with
  | [] => ([], [])
  | c :: cs =>
    if isIdentifierChar c then
      ((c :: (identSplit cs).1), (identSplit cs).2)
    else ([], c :: cs)

/-- `identifier` from `src/lib.rs` (lines 29-59).  Note two behaviours taken
verbatim from the source: the non-alphabetic-first-character error carries
the hardcoded offset `0` (line 35), and when the scan for a non-identifier
character finds none (`None` branch, lines 53-57) only the first character
is consumed and returned. -/
def identifier (text : List Char) (position : Nat) :
    Except ParseError (List Char × Nat × List Char) :=
  match text with
  | [] => .error (.PrematureEndOfText position)
  | first :: rest =>
    if isAlphabetic first then
      match (identSplit rest).2 with
      | [] => .ok (rest, position + first.utf8Size, [first])
      | _ :: _ =>
        .ok ((identSplit rest).2,
             position + first.utf8Size + utf8Len (identSplit rest).1,
             first :: (identSplit rest).1)
    else .error (.IdentifiersFirstCharacterNotAlphabetic 0)

/-- `skip_white_space` from `src/lib.rs` (lines 61-68): advance past leading
whitespace, accumulating byte offsets; never fails. -/
def skip_white_space (text : List Char) (position : Nat) :
    Except ParseError (List Char × Nat × Unit) :=
  match text with
  | [] => .ok ([], position, ())
  | c :: cs =>
    if isWhitespace c then skip_white_space cs (position + c.utf8Size)
    else .ok (c :: cs, position, ())

/-- `literal` from `src/lib.rs` (lines 70-82): succeeds iff the remaining
text starts with `expected`, advancing by its byte length; otherwise fails
with `ExpectedLiteralNotFound` at the current position. -/
def literal (text : List Char) (position : Nat) (expected : List Char) :
    Except ParseError (List Char × Nat × List Char) :=
  if expected.isPrefixOf text then
    .ok (text.drop expected.length, position + utf8Len expected, expected)
  else .error (.ExpectedLiteralNotFound position expected)

/-- `escaped_char` from `src/lib.rs` (lines 110-121).  The Rust function
advances the shared `CharIndices` iterator; here the consumed-iterator
state is returned as the second component. -/
def escaped_char (chars : List Char) (position : Nat) :
    Except ParseError (Char × List Char) :=
  match chars with
  | [] => .error (.PrematureEndOfText position)
  | c :: rest =>
    if c = '\'' ∨ c = '\\' then .ok (c, rest)
    else .error (.UnknownEscapedSymbol position c)

/-- The scanning loop of `single_quoted_string` (lines 93-105).  `chars` is
the iterator state, `idx` the byte index (relative to the post-quote text)
of the next character, `errPos` the running `err_position`, `content` the
decoded content accumulated so far.  On success returns the iterator state
after the closing quote, the byte index of the closing quote, and the
decoded content.

The backslash arm destructures the iterator before calling
`escaped_char` so the recursion is structural: an exhausted iterator is
exactly `escaped_char`'s `PrematureEndOfText (position + idx)` branch
(written out), and on success `escaped_char (d :: rest2)` always leaves
the iterator at `rest2` (its second component is definitionally `rest2`),
so recursing on the pattern variable `rest2` is the same iterator
state the Rust loop continues with. -/
def sqsLoop (position : Nat) (chars : List Char) (idx errPos : Nat)
    (content : List Char) : Except ParseError (List Char × Nat × List Char) :=
  match chars with
  | [] => .error (.PrematureEndOfText errPos)
  | c :: rest =>
    if c = '\'' then .ok (rest, idx, content)
    else if c = '\\' then
      match rest with
      | [] => .error (.PrematureEndOfText (position + idx))
      | d :: rest2 =>
        match escaped_char (d :: rest2) (position + idx) with
        | .error e => .error e
        | .ok (ec, _) =>
          sqsLoop position rest2 (idx + 1 + ec.utf8Size) (position + idx)
            (content ++ [ec])
    else sqsLoop position rest (idx + c.utf8Size) (position + idx)
      (content ++ [c])

/-- `single_quoted_string` from `src/lib.rs` (lines 84-108).  Note the
returned cursor, verbatim from line 107: the remaining text starts after
the closing quote (`last_char.0 + 1`) but the returned offset is only
`position + last_char.0`. -/
def single_quoted_string (text : List Char) (position : Nat) :
    Except ParseError (List Char × Nat × List Char) :=
  match literal text position ['\''] with
  | .error e => .error e
  | .ok (text2, position2, _) =>
    match sqsLoop position2 text2 0 position2 [] with
    | .error e => .error e
    | .ok (rest, lastIdx, content) => .ok (rest, position2 + lastIdx, content)

mutual

/-- `value` from `src/lib.rs` (lines 246-260), fuelled: tries
`single_quoted_string`, `list`, `object` in order on the same cursor,
returning `NoValueFound` at the original position when all three fail. -/
def valueF (fuel : Nat) (text : List Char) (position : Nat) :
    Option (Except ParseError (List Char × Nat × Value)) :=
  match fuel with
  | 0 => none
  | fuel + 1 =>
    match single_quoted_string text position with
    | .ok (t, p, s) => some (.ok (t, p, .StringValue s))
    | .error _ =>
      match listF fuel text position with
      | none => none
      | some (.ok (t, p, vs)) => some (.ok (t, p, .ListValue vs))
      | some (.error _) =>
        match objectF fuel text position with
        | none => none
        | some (.ok (t, p, ps)) => some (.ok (t, p, .ObjectValue ps))
        | some (.error _) => some (.error (.NoValueFound position))
termination_by structural fuel

/-- `list` from `src/lib.rs` (lines 197-244) up to the start of its loop:
`[`, whitespace, then the empty-list probe; a non-empty list continues in
`listLoopF`. -/
def listF (fuel : Nat) (text : List Char) (position : Nat) :
    Option (Except ParseError (List Char × Nat × List Value)) :=
  match fuel with
  | 0 => none
  | fuel + 1 =>
    match literal text position ['['] with
    | .error e => some (.error e)
    | .ok (text, position, _) =>
      match skip_white_space text position with
      | .error e => some (.error e)
      | .ok (text, position, _) =>
        match valueF fuel text position with
        | none => none
        | some (.error _) =>
          match literal text position [']'] with
          | .error e => some (.error e)
          | .ok (text, position, _) => some (.ok (text, position, []))
        | some (.ok (text, position, v)) => listLoopF fuel text position [v]
termination_by structural fuel

/-- The loop of `list` (lines 216-238) together with the code after the
loop (lines 240-243).  A failed `;` probe restores the pre-whitespace
cursor and falls through to the closing `]`; after a consumed `;` a failed
`value` attempt propagates its error (the `?` on line 235). -/
def listLoopF (fuel : Nat) (text : List Char) (position : Nat)
    (values : List Value) :
    Option (Except ParseError (List Char × Nat × List Value)) :=
  match fuel with
  | 0 => none
  | fuel + 1 =>
    match skip_white_space text position with
    | .error e => some (.error e)
    | .ok (text2, position2, _) =>
      match literal text2 position2 [';'] with
      | .error _ =>
        match skip_white_space text position with
        | .error e => some (.error e)
        | .ok (text3, position3, _) =>
          match literal text3 position3 [']'] with
          | .error e => some (.error e)
          | .ok (text4, position4, _) => some (.ok (text4, position4, values))
      | .ok (text3, position3, _) =>
        match skip_white_space text3 position3 with
        | .error e => some (.error e)
        | .ok (text4, position4, _) =>
          match valueF fuel text4 position4 with
          | none => none
          | some (.error e) => some (.error e)
          | some (.ok (text5, position5, v)) =>
            listLoopF fuel text5 position5 (values ++ [v])
termination_by structural fuel

/-- `object` from `src/lib.rs` (lines 176-195): `(`, whitespace, a
`key_value_pairs` attempt whose failure falls back to an immediate `)` and
an empty pair list, otherwise whitespace and `)`. -/
def objectF (fuel : Nat) (text : List Char) (position : Nat) :
    Option (Except ParseError (List Char × Nat × List (List Char × Value))) :=
  match fuel with
  | 0 => none
  | fuel + 1 =>
    match literal text position ['('] with
    | .error e => some (.error e)
    | .ok (text, position, _) =>
      match skip_white_space text position with
      | .error e => some (.error e)
      | .ok (text, position, _) =>
        match key_value_pairsF fuel text position with
        | none => none
        | some (.error _) =>
          match literal text position [')'] with
          | .error e => some (.error e)
          | .ok (text2, position2, _) => some (.ok (text2, position2, []))
        | some (.ok (text2, position2, content)) =>
          match skip_white_space text2 position2 with
          | .error e => some (.error e)
          | .ok (text3, position3, _) =>
            match literal text3 position3 [')'] with
            | .error e => some (.error e)
            | .ok (text4, position4, _) => some (.ok (text4, position4, content))
termination_by structural fuel

/-- `key_value_pair` from `src/lib.rs` (lines 123-137): identifier,
whitespace, `=`, whitespace, value. -/
def key_value_pairF (fuel : Nat) (text : List Char) (position : Nat) :
    Option (Except ParseError (List Char × Nat × (List Char × Value))) :=
  match fuel with
  | 0 => none
  | fuel + 1 =>
    match identifier text position with
    | .error e => some (.error e)
    | .ok (text, position, key) =>
      match skip_white_space text position with
      | .error e => some (.error e)
      | .ok (text, position, _) =>
        match literal text position ['='] with
        | .error e => some (.error e)
        | .ok (text, position, _) =>
          match skip_white_space text position with
          | .error e => some (.error e)
          | .ok (text, position, _) =>
            match valueF fuel text position with
            | none => none
            | some (.error e) => some (.error e)
            | some (.ok (text, position, v)) =>
              some (.ok (text, position, (key, v)))
termination_by structural fuel

/-- `key_value_pairs` from `src/lib.rs` (lines 139-174) up to the start of
its loop: leading whitespace, the empty-input success, the mandatory first
pair; the repetition continues in `key_value_pairsLoopF`. -/
def key_value_pairsF (fuel : Nat) (text : List Char) (position : Nat) :
    Option (Except ParseError (List Char × Nat × List (List Char × Value))) :=
  match fuel with
  | 0 => none
  | fuel + 1 =>
    match skip_white_space text position with
    | .error e => some (.error e)
    | .ok (text, position, _) =>
      if text.isEmpty then some (.ok (text, position, []))
      else
        match key_value_pairF fuel text position with
        | none => none
        | some (.error e) => some (.error e)
        | some (.ok (text, position, p)) =>
          key_value_pairsLoopF fuel text position [p]
termination_by structural fuel

/-- The loop of `key_value_pairs` (lines 152-173): remember the
pre-whitespace cursor; a failed `;` probe returns it; after a consumed `;`
a failed `key_value_pair` attempt returns the cursor right after the `;`
(trailing-separator tolerance), a successful one is appended. -/
def key_value_pairsLoopF (fuel : Nat) (text : List Char) (position : Nat)
    (pairs : List (List Char × Value)) :
    Option (Except ParseError (List Char × Nat × List (List Char × Value))) :=
  match fuel with
  | 0 => none
  | fuel + 1 =>
    match skip_white_space text position with
    | .error e => some (.error e)
    | .ok (text2, position2, _) =>
      match literal text2 position2 [';'] with
      | .error _ => some (.ok (text, position, pairs))
      | .ok (text3, position3, _) =>
        match skip_white_space text3 position3 with
        | .error e => some (.error e)
        | .ok (text4, position4, _) =>
          match key_value_pairF fuel text4 position4 with
          | none => none
          | some (.error _) => some (.ok (text3, position3, pairs))
          | some (.ok (text5, position5, p)) =>
            key_value_pairsLoopF fuel text5 position5 (pairs ++ [p])
termination_by structural fuel

end

/-- `parse_option_string` from `src/lib.rs` (lines 262-264), fuelled:
`key_value_pairs` at position 0, keeping the remaining text and the pairs
and dropping the position. -/
def parse_option_stringF (fuel : Nat) (text : List Char) :
    Option (Except ParseError (List Char × List (List Char × Value))) :=
  match key_value_pairsF fuel text 0 with
  | none => none
  | some (.error e) => some (.error e)
  | some (.ok (t, _, ps)) => some (.ok (t, ps))

/-- The public entry point on a `String`, run with fuel `2 * length + 3`.
The adequacy theorem below proves this fuel always suffices, so the
`none` fallback branch is unreachable. -/
def parse_option_string (s : String) :
    Except ParseError (List Char × List (List Char × Value)) :=
  match parse_option_stringF (2 * s.toList.length + 3) s.toList with
  | some r => r
  | none => .error (.PrematureEndOfText 0)

/-! ### Basic lemmas about the lexical primitives -/

/-- `skip_white_space` never fails, and never lengthens the remaining
text. -/
theorem sws_ok (text : List Char) (position : Nat) :
    ∃ t q, skip_white_space text position = .ok (t, q, ()) ∧
      t.length ≤ text.length := by
  induction text generalizing position with
  | nil => exact ⟨[], position, rfl, Nat.le_refl 0⟩
  | cons c cs ih =>
    by_cases hc : isWhitespace c = true
    · obtain ⟨t, q, h, hlen⟩ := ih (position + c.utf8Size)
      refine ⟨t, q, ?_, ?_⟩
      · simp only [skip_white_space, hc, if_true]
        exact h
      · exact Nat.le_trans hlen (Nat.le_succ _)
    · refine ⟨c :: cs, position, ?_, Nat.le_refl _⟩
      simp [skip_white_space, hc]

/-- A boolean prefix implies the length inequality. -/
theorem isPrefixOf_length_le :
    ∀ (as bs : List Char), as.isPrefixOf bs = true → as.length ≤ bs.length := by
  intro as
  induction as with
  | nil => intro bs _; exact Nat.zero_le _
  | cons a as ih =>
    intro bs h
    cases bs with
    | nil => simp [List.isPrefixOf] at h
    | cons b bs =>
      simp only [List.isPrefixOf, Bool.and_eq_true] at h
      simpa using ih bs h.2

/-- A successful nonempty `literal` strictly shortens the remaining text. -/
theorem literal_ok_lt {text : List Char} {position : Nat} {e : Char}
    {es t out : List Char} {q : Nat}
    (h : literal text position (e :: es) = .ok (t, q, out)) :
    t.length < text.length := by
  simp only [literal] at h
  split at h
  · rename_i hpre
    have hle := isPrefixOf_length_le _ _ hpre
    simp only [Except.ok.injEq, Prod.mk.injEq] at h
    obtain ⟨rfl, -, -⟩ := h
    simp only [List.length_drop, List.length_cons] at *
    omega
  · exact (Except.noConfusion h)

/-- A successful `literal` never lengthens the remaining text. -/
theorem literal_ok_le {text : List Char} {position : Nat}
    {expected t out : List Char} {q : Nat}
    (h : literal text position expected = .ok (t, q, out)) :
    t.length ≤ text.length := by
  simp only [literal] at h
  split at h
  · simp only [Except.ok.injEq, Prod.mk.injEq] at h
    obtain ⟨rfl, -, -⟩ := h
    simp only [List.length_drop]
    omega
  · exact (Except.noConfusion h)

/-- The tail of `identSplit` is no longer than its input. -/
theorem identSplit_snd_length_le :
    ∀ (cs : List Char), (identSplit cs).2.length ≤ cs.length := by
  intro cs
  induction cs with
  | nil => simp [identSplit]
  | cons c cs ih =>
    by_cases hc : isIdentifierChar c = true
    · simp only [identSplit, hc, if_true]
      exact Nat.le_trans ih (Nat.le_succ _)
    · simp [identSplit, hc]

/-- A successful `identifier` strictly shortens the remaining text. -/
theorem identifier_ok_lt {text : List Char} {position : Nat}
    {t out : List Char} {q : Nat}
    (h : identifier text position = .ok (t, q, out)) :
    t.length < text.length := by
  cases text with
  | nil => exact (Except.noConfusion h)
  | cons first rest =>
    simp only [identifier] at h
    split at h
    · split at h
      · simp only [Except.ok.injEq, Prod.mk.injEq] at h
        obtain ⟨rfl, -, -⟩ := h
        simp
      · simp only [Except.ok.injEq, Prod.mk.injEq] at h
        obtain ⟨rfl, -, -⟩ := h
        have := identSplit_snd_length_le rest
        simp only [List.length_cons]
        omega
    · exact (Except.noConfusion h)

/-- A successful `escaped_char` consumes exactly one character. -/
theorem escaped_char_ok_lt {chars rest : List Char} {position : Nat} {c : Char}
    (h : escaped_char chars position = .ok (c, rest)) :
    rest.length < chars.length := by
  cases chars with
  | nil => exact (Except.noConfusion h)
  | cons d ds =>
    simp only [escaped_char] at h
    split at h
    · simp only [Except.ok.injEq, Prod.mk.injEq] at h
      obtain ⟨-, rfl⟩ := h
      simp
    · exact (Except.noConfusion h)

/-- A successful string-body scan strictly shortens the character
sequence (it consumes at least the closing quote). -/
theorem sqsLoop_ok_lt :
    ∀ (n : Nat) (chars : List Char), chars.length ≤ n →
      ∀ (position idx errPos : Nat) (content t out : List Char) (i : Nat),
        sqsLoop position chars idx errPos content = .ok (t, i, out) →
        t.length < chars.length := by
  intro n
  induction n with
  | zero =>
    intro chars hlen position idx errPos content t out i h
    have hnil : chars = [] := List.length_eq_zero.mp (Nat.le_zero.mp hlen)
    subst hnil
    exact (Except.noConfusion h)
  | succ n ih =>
    intro chars hlen position idx errPos content t out i h
    cases chars with
    | nil => exact (Except.noConfusion h)
    | cons c cs =>
      rw [sqsLoop.eq_def] at h
      simp only [] at h
      split at h
      · simp only [Except.ok.injEq, Prod.mk.injEq] at h
        obtain ⟨rfl, -, -⟩ := h
        simp
      · split at h
        · split at h
          · exact (Except.noConfusion h)
          · split at h
            · exact (Except.noConfusion h)
            · rename_i d rest2 ec o hesc
              simp only [List.length_cons] at hlen ⊢
              have := ih _ (by omega) _ _ _ _ _ _ _ h
              omega
        · simp only [List.length_cons] at hlen ⊢
          have := ih _ (by omega) _ _ _ _ _ _ _ h
          omega

/-- A successful `single_quoted_string` strictly shortens the remaining
text. -/
theorem single_quoted_string_ok_lt {text : List Char} {position : Nat}
    {t out : List Char} {q : Nat}
    (h : single_quoted_string text position = .ok (t, q, out)) :
    t.length < text.length := by
  simp only [single_quoted_string] at h
  split at h
  · exact (Except.noConfusion h)
  · rename_i text2 position2 o hlit
    split at h
    · exact (Except.noConfusion h)
    · rename_i rest lastIdx content hloop
      simp only [Except.ok.injEq, Prod.mk.injEq] at h
      obtain ⟨rfl, -, -⟩ := h
      have h1 := literal_ok_lt hlit
      have h2 := sqsLoop_ok_lt text2.length text2 (Nat.le_refl _) _ _ _ _ _ _ _ hloop
      omega

/-- Length form of `sws_ok` usable on a match-equation hypothesis. -/
theorem sws_ok_le {text t : List Char} {position q : Nat} {u : Unit}
    (h : skip_white_space text position = .ok (t, q, u)) :
    t.length ≤ text.length := by
  obtain ⟨t', q', h', hl⟩ := sws_ok text position
  rw [h] at h'
  simp only [Except.ok.injEq, Prod.mk.injEq] at h'
  obtain ⟨rfl, -⟩ := h'
  exact hl

/-- No rule of the fuelled mutual family ever lengthens the remaining
text: whatever it returns as remaining input is a suffix-length-bounded
view of what it was given. -/
theorem consume_le :
    ∀ fuel : Nat,
      (∀ text position t q v, valueF fuel text position = some (.ok (t, q, v)) →
        t.length ≤ text.length) ∧
      (∀ text position t q vs, listF fuel text position = some (.ok (t, q, vs)) →
        t.length ≤ text.length) ∧
      (∀ text position acc t q vs,
        listLoopF fuel text position acc = some (.ok (t, q, vs)) →
        t.length ≤ text.length) ∧
      (∀ text position t q ps, objectF fuel text position = some (.ok (t, q, ps)) →
        t.length ≤ text.length) ∧
      (∀ text position t q p,
        key_value_pairF fuel text position = some (.ok (t, q, p)) →
        t.length ≤ text.length) ∧
      (∀ text position t q ps,
        key_value_pairsF fuel text position = some (.ok (t, q, ps)) →
        t.length ≤ text.length) ∧
      (∀ text position acc t q ps,
        key_value_pairsLoopF fuel text position acc = some (.ok (t, q, ps)) →
        t.length ≤ text.length) := by
  intro fuel
  induction fuel with
  | zero =>
    exact ⟨fun text position t q v h => absurd h (by simp [valueF]),
           fun text position t q vs h => absurd h (by simp [listF]),
           fun text position acc t q vs h => absurd h (by simp [listLoopF]),
           fun text position t q ps h => absurd h (by simp [objectF]),
           fun text position t q p h => absurd h (by simp [key_value_pairF]),
           fun text position t q ps h => absurd h (by simp [key_value_pairsF]),
           fun text position acc t q ps h =>
             absurd h (by simp [key_value_pairsLoopF])⟩
  | succ fuel ih =>
    obtain ⟨ihv, ihl, ihll, iho, ihp, ihps, ihpl⟩ := ih
    have hv : ∀ text position t q v,
        valueF (fuel + 1) text position = some (.ok (t, q, v)) →
        t.length ≤ text.length := by
      intro text position t q v h
      rw [valueF] at h
      split at h
      · rename_i t2 p2 s hsqs
        simp only [Option.some.injEq, Except.ok.injEq, Prod.mk.injEq] at h
        obtain ⟨rfl, -, -⟩ := h
        exact Nat.le_of_lt (single_quoted_string_ok_lt hsqs)
      · split at h
        · exact (Option.noConfusion h)
        · rename_i t2 p2 vs hlist
          simp only [Option.some.injEq, Except.ok.injEq, Prod.mk.injEq] at h
          obtain ⟨rfl, -, -⟩ := h
          exact ihl _ _ _ _ _ hlist
        · split at h
          · exact (Option.noConfusion h)
          · rename_i t2 p2 ps hobj
            simp only [Option.some.injEq, Except.ok.injEq, Prod.mk.injEq] at h
            obtain ⟨rfl, -, -⟩ := h
            exact iho _ _ _ _ _ hobj
          · simp at h
    have hl : ∀ text position t q vs,
        listF (fuel + 1) text position = some (.ok (t, q, vs)) →
        t.length ≤ text.length := by
      intro text position t q vs h
      rw [listF] at h
      split at h
      · simp at h
      · rename_i t1 p1 o1 hlit
        split at h
        · simp at h
        · rename_i t2 p2 u2 hsw
          split at h
          · exact (Option.noConfusion h)
          · split at h
            · simp at h
            · rename_i t3 p3 o3 hlit2
              simp only [Option.some.injEq, Except.ok.injEq, Prod.mk.injEq] at h
              obtain ⟨rfl, -, -⟩ := h
              have h1 := literal_ok_le hlit2
              have h2 := sws_ok_le hsw
              have h3 := literal_ok_le hlit
              omega
          · rename_i t3 p3 v3 hval
            have h1 := ihll _ _ _ _ _ _ h
            have h2 := ihv _ _ _ _ _ hval
            have h3 := sws_ok_le hsw
            have h4 := literal_ok_le hlit
            omega
    have hll : ∀ text position acc t q vs,
        listLoopF (fuel + 1) text position acc = some (.ok (t, q, vs)) →
        t.length ≤ text.length := by
      intro text position acc t q vs h
      rw [listLoopF] at h
      split at h
      · simp at h
      · rename_i t2 p2 u2 hsw
        split at h
        · split at h
          · simp at h
          · rename_i t3 p3 u3 hsw2
            simp only [Except.ok.injEq, Prod.mk.injEq] at hsw2
            obtain ⟨rfl, rfl, -⟩ := hsw2
            split at h
            · simp at h
            · rename_i t4 p4 o4 hlit
              simp only [Option.some.injEq, Except.ok.injEq, Prod.mk.injEq] at h
              obtain ⟨rfl, -, -⟩ := h
              have h1 := literal_ok_le hlit
              have h2 := sws_ok_le hsw
              omega
        · rename_i t3 p3 o3 hlit
          split at h
          · simp at h
          · rename_i t4 p4 u4 hsw2
            split at h
            · exact (Option.noConfusion h)
            · simp at h
            · rename_i t5 p5 v5 hval
              have h1 := ihll _ _ _ _ _ _ h
              have h2 := ihv _ _ _ _ _ hval
              have h3 := sws_ok_le hsw2
              have h4 := literal_ok_le hlit
              have h5 := sws_ok_le hsw
              omega
    have ho : ∀ text position t q ps,
        objectF (fuel + 1) text position = some (.ok (t, q, ps)) →
        t.length ≤ text.length := by
      intro text position t q ps h
      rw [objectF] at h
      split at h
      · simp at h
      · rename_i t1 p1 o1 hlit
        split at h
        · simp at h
        · rename_i t2 p2 u2 hsw
          split at h
          · exact (Option.noConfusion h)
          · split at h
            · simp at h
            · rename_i t3 p3 o3 hlit2
              simp only [Option.some.injEq, Except.ok.injEq, Prod.mk.injEq] at h
              obtain ⟨rfl, -, -⟩ := h
              have h1 := literal_ok_le hlit2
              have h2 := sws_ok_le hsw
              have h3 := literal_ok_le hlit
              omega
          · rename_i t3 p3 c3 hkvps
            split at h
            · simp at h
            · rename_i t4 p4 u4 hsw2
              split at h
              · simp at h
              · rename_i t5 p5 o5 hlit2
                simp only [Option.some.injEq, Except.ok.injEq, Prod.mk.injEq] at h
                obtain ⟨rfl, -, -⟩ := h
                have h1 := literal_ok_le hlit2
                have h2 := sws_ok_le hsw2
                have h3 := ihps _ _ _ _ _ hkvps
                have h4 := sws_ok_le hsw
                have h5 := literal_ok_le hlit
                omega
    have hp : ∀ text position t q p,
        key_value_pairF (fuel + 1) text position = some (.ok (t, q, p)) →
        t.length ≤ text.length := by
      intro text position t q p h
      rw [key_value_pairF] at h
      split at h
      · simp at h
      · rename_i t1 p1 k1 hid
        split at h
        · simp at h
        · rename_i t2 p2 u2 hsw
          split at h
          · simp at h
          · rename_i t3 p3 o3 hlit
            split at h
            · simp at h
            · rename_i t4 p4 u4 hsw2
              split at h
              · exact (Option.noConfusion h)
              · simp at h
              · rename_i t5 p5 v5 hval
                simp only [Option.some.injEq, Except.ok.injEq, Prod.mk.injEq] at h
                obtain ⟨rfl, -, -⟩ := h
                have h1 := ihv _ _ _ _ _ hval
                have h2 := sws_ok_le hsw2
                have h3 := literal_ok_le hlit
                have h4 := sws_ok_le hsw
                have h5 := Nat.le_of_lt (identifier_ok_lt hid)
                omega
    have hpl : ∀ text position acc t q ps,
        key_value_pairsLoopF (fuel + 1) text position acc = some (.ok (t, q, ps)) →
        t.length ≤ text.length := by
      intro text position acc t q ps h
      rw [key_value_pairsLoopF] at h
      split at h
      · simp at h
      · rename_i t2 p2 u2 hsw
        split at h
        · simp only [Option.some.injEq, Except.ok.injEq, Prod.mk.injEq] at h
          obtain ⟨rfl, -, -⟩ := h
          exact Nat.le_refl _
        · rename_i t3 p3 o3 hlit
          split at h
          · simp at h
          · rename_i t4 p4 u4 hsw2
            split at h
            · exact (Option.noConfusion h)
            · simp only [Option.some.injEq, Except.ok.injEq, Prod.mk.injEq] at h
              obtain ⟨rfl, -, -⟩ := h
              have h1 := literal_ok_le hlit
              have h2 := sws_ok_le hsw
              omega
            · rename_i t5 p5 pr5 hkvp
              have h1 := ihpl _ _ _ _ _ _ h
              have h2 := ihp _ _ _ _ _ hkvp
              have h3 := sws_ok_le hsw2
              have h4 := literal_ok_le hlit
              have h5 := sws_ok_le hsw
              omega
    have hps : ∀ text position t q ps,
        key_value_pairsF (fuel + 1) text position = some (.ok (t, q, ps)) →
        t.length ≤ text.length := by
      intro text position t q ps h
      rw [key_value_pairsF] at h
      split at h
      · simp at h
      · rename_i t1 p1 u1 hsw
        split at h
        · simp only [Option.some.injEq, Except.ok.injEq, Prod.mk.injEq] at h
          obtain ⟨rfl, -, -⟩ := h
          exact sws_ok_le hsw
        · split at h
          · exact (Option.noConfusion h)
          · simp at h
          · rename_i t2 p2 pr2 hkvp
            have h1 := ihpl _ _ _ _ _ _ h
            have h2 := ihp _ _ _ _ _ hkvp
            have h3 := sws_ok_le hsw
            omega
    exact ⟨hv, hl, hll, ho, hp, hps, hpl⟩

/-- Fuel adequacy: fuel linear in the length of the remaining input is
enough for every rule of the mutual family to complete (never return
`none`).  This is the termination argument for the Rust functions: every
loop iteration consumes at least the one-byte `;`, and every recursive
descent consumes at least one character (`[`, `(`, or an identifier and
`=`) before re-entering `value`. -/
theorem fuel_adequate :
    ∀ (n : Nat) (text : List Char), text.length ≤ n → ∀ position : Nat,
      (∀ k, 2 * n + 2 ≤ k → (key_value_pairF k text position).isSome) ∧
      (∀ acc k, 2 * n + 1 ≤ k →
        (key_value_pairsLoopF k text position acc).isSome) ∧
      (∀ acc k, 2 * n + 2 ≤ k → (listLoopF k text position acc).isSome) ∧
      (∀ k, 2 * n + 2 ≤ k → (listF k text position).isSome) ∧
      (∀ k, 2 * n + 2 ≤ k → (objectF k text position).isSome) ∧
      (∀ k, 2 * n + 3 ≤ k → (key_value_pairsF k text position).isSome) ∧
      (∀ k, 2 * n + 3 ≤ k → (valueF k text position).isSome) := by
  intro n
  induction n with
  | zero =>
    intro text hlen position
    have hnil : text = [] := List.length_eq_zero.mp (Nat.le_zero.mp hlen)
    subst hnil
    refine ⟨?_, ?_, ?_, ?_, ?_, ?_, ?_⟩
    · intro k hk
      obtain ⟨m, rfl⟩ : ∃ m, k = m + 1 := ⟨k - 1, by omega⟩
      simp [key_value_pairF, identifier]
    · intro acc k hk
      obtain ⟨m, rfl⟩ : ∃ m, k = m + 1 := ⟨k - 1, by omega⟩
      simp [key_value_pairsLoopF, skip_white_space, literal, List.isPrefixOf]
    · intro acc k hk
      obtain ⟨m, rfl⟩ : ∃ m, k = m + 1 := ⟨k - 1, by omega⟩
      simp [listLoopF, skip_white_space, literal, List.isPrefixOf]
    · intro k hk
      obtain ⟨m, rfl⟩ : ∃ m, k = m + 1 := ⟨k - 1, by omega⟩
      simp [listF, literal, List.isPrefixOf]
    · intro k hk
      obtain ⟨m, rfl⟩ : ∃ m, k = m + 1 := ⟨k - 1, by omega⟩
      simp [objectF, literal, List.isPrefixOf]
    · intro k hk
      obtain ⟨m, rfl⟩ : ∃ m, k = m + 1 := ⟨k - 1, by omega⟩
      simp [key_value_pairsF, skip_white_space]
    · intro k hk
      obtain ⟨m, rfl⟩ : ∃ m, k = m + 3 := ⟨k - 3, by omega⟩
      simp [valueF, listF, objectF, single_quoted_string, literal,
        List.isPrefixOf]
  | succ n ih =>
    have Hkvp : ∀ (text : List Char), text.length ≤ n + 1 →
        ∀ (position k : Nat), 2 * (n + 1) + 2 ≤ k →
        (key_value_pairF k text position).isSome := by
      intro text hlen position k hk
      obtain ⟨k', rfl⟩ : ∃ m, k = m + 1 := ⟨k - 1, by omega⟩
      rw [key_value_pairF]
      split
      · simp
      · rename_i t1 p1 key hid
        split
        · simp
        · rename_i t2 p2 u2 hsw
          split
          · simp
          · rename_i t3 p3 o3 hlit
            split
            · simp
            · rename_i t4 p4 u4 hsw2
              have hlen4 : t4.length ≤ n := by
                have h1 := identifier_ok_lt hid
                have h2 := sws_ok_le hsw
                have h3 := literal_ok_le hlit
                have h4 := sws_ok_le hsw2
                omega
              have hval : (valueF k' t4 p4).isSome :=
                (ih t4 hlen4 p4).2.2.2.2.2.2 k' (by omega)
              split
              · rename_i hnone
                rw [hnone] at hval
                simp at hval
              · simp
              · simp
    have Hkpl : ∀ (text : List Char), text.length ≤ n + 1 →
        ∀ (position : Nat) (acc : List (List Char × Value)) (k : Nat),
        2 * (n + 1) + 1 ≤ k →
        (key_value_pairsLoopF k text position acc).isSome := by
      intro text hlen position acc k hk
      obtain ⟨k', rfl⟩ : ∃ m, k = m + 1 := ⟨k - 1, by omega⟩
      rw [key_value_pairsLoopF]
      split
      · simp
      · rename_i t2 p2 u2 hsw
        split
        · simp
        · rename_i t3 p3 o3 hlit
          have hlen3 : t3.length ≤ n := by
            have h1 := sws_ok_le hsw
            have h2 := literal_ok_lt hlit
            omega
          split
          · simp
          · rename_i t4 p4 u4 hsw2
            have hlen4 : t4.length ≤ n := Nat.le_trans (sws_ok_le hsw2) hlen3
            have hkvp : (key_value_pairF k' t4 p4).isSome :=
              (ih t4 hlen4 p4).1 k' (by omega)
            split
            · rename_i hnone
              rw [hnone] at hkvp
              simp at hkvp
            · simp
            · rename_i t5 p5 pr5 hok
              have hlen5 : t5.length ≤ n :=
                Nat.le_trans ((consume_le k').2.2.2.2.1 _ _ _ _ _ hok) hlen4
              exact (ih t5 hlen5 p5).2.1 (acc ++ [pr5]) k' (by omega)
    have Hll : ∀ (text : List Char), text.length ≤ n + 1 →
        ∀ (position : Nat) (acc : List Value) (k : Nat),
        2 * (n + 1) + 2 ≤ k →
        (listLoopF k text position acc).isSome := by
      intro text hlen position acc k hk
      obtain ⟨k', rfl⟩ : ∃ m, k = m + 1 := ⟨k - 1, by omega⟩
      rw [listLoopF]
      split
      · simp
      · rename_i t2 p2 u2 hsw
        split
        · split
          · simp
          · split
            · simp
            · simp
        · rename_i t3 p3 o3 hlit
          have hlen3 : t3.length ≤ n := by
            have h1 := sws_ok_le hsw
            have h2 := literal_ok_lt hlit
            omega
          split
          · simp
          · rename_i t4 p4 u4 hsw2
            have hlen4 : t4.length ≤ n := Nat.le_trans (sws_ok_le hsw2) hlen3
            have hval : (valueF k' t4 p4).isSome :=
              (ih t4 hlen4 p4).2.2.2.2.2.2 k' (by omega)
            split
            · rename_i hnone
              rw [hnone] at hval
              simp at hval
            · simp
            · rename_i t5 p5 v5 hok
              have hlen5 : t5.length ≤ n :=
                Nat.le_trans ((consume_le k').1 _ _ _ _ _ hok) hlen4
              exact (ih t5 hlen5 p5).2.2.1 (acc ++ [v5]) k' (by omega)
    have Hli : ∀ (text : List Char), text.length ≤ n + 1 →
        ∀ (position k : Nat), 2 * (n + 1) + 2 ≤ k →
        (listF k text position).isSome := by
      intro text hlen position k hk
      obtain ⟨k', rfl⟩ : ∃ m, k = m + 1 := ⟨k - 1, by omega⟩
      rw [listF]
      split
      · simp
      · rename_i t1 p1 o1 hlit
        have hlen1 : t1.length ≤ n := by
          have := literal_ok_lt hlit
          omega
        split
        · simp
        · rename_i t2 p2 u2 hsw
          have hlen2 : t2.length ≤ n := Nat.le_trans (sws_ok_le hsw) hlen1
          have hval : (valueF k' t2 p2).isSome :=
            (ih t2 hlen2 p2).2.2.2.2.2.2 k' (by omega)
          split
          · rename_i hnone
            rw [hnone] at hval
            simp at hval
          · split
            · simp
            · simp
          · rename_i t3 p3 v3 hok
            have hlen3 : t3.length ≤ n :=
              Nat.le_trans ((consume_le k').1 _ _ _ _ _ hok) hlen2
            exact (ih t3 hlen3 p3).2.2.1 [v3] k' (by omega)
    have Hob : ∀ (text : List Char), text.length ≤ n + 1 →
        ∀ (position k : Nat), 2 * (n + 1) + 2 ≤ k →
        (objectF k text position).isSome := by
      intro text hlen position k hk
      obtain ⟨k', rfl⟩ : ∃ m, k = m + 1 := ⟨k - 1, by omega⟩
      rw [objectF]
      split
      · simp
      · rename_i t1 p1 o1 hlit
        have hlen1 : t1.length ≤ n := by
          have := literal_ok_lt hlit
          omega
        split
        · simp
        · rename_i t2 p2 u2 hsw
          have hlen2 : t2.length ≤ n := Nat.le_trans (sws_ok_le hsw) hlen1
          have hkvps : (key_value_pairsF k' t2 p2).isSome :=
            (ih t2 hlen2 p2).2.2.2.2.2.1 k' (by omega)
          split
          · rename_i hnone
            rw [hnone] at hkvps
            simp at hkvps
          · split
            · simp
            · simp
          · split
            · simp
            · split
              · simp
              · simp
    have Hkvps : ∀ (text : List Char), text.length ≤ n + 1 →
        ∀ (position k : Nat), 2 * (n + 1) + 3 ≤ k →
        (key_value_pairsF k text position).isSome := by
      intro text hlen position k hk
      obtain ⟨k', rfl⟩ : ∃ m, k = m + 1 := ⟨k - 1, by omega⟩
      rw [key_value_pairsF]
      split
      · simp
      · rename_i t1 p1 u1 hsw
        have hlen1 : t1.length ≤ n + 1 := Nat.le_trans (sws_ok_le hsw) hlen
        split
        · simp
        · have hkvp : (key_value_pairF k' t1 p1).isSome :=
            Hkvp t1 hlen1 p1 k' (by omega)
          split
          · rename_i hnone
            rw [hnone] at hkvp
            simp at hkvp
          · simp
          · rename_i t2 p2 pr2 hok
            have hlen2 : t2.length ≤ n + 1 :=
              Nat.le_trans ((consume_le k').2.2.2.2.1 _ _ _ _ _ hok) hlen1
            exact Hkpl t2 hlen2 p2 [pr2] k' (by omega)
    have Hval : ∀ (text : List Char), text.length ≤ n + 1 →
        ∀ (position k : Nat), 2 * (n + 1) + 3 ≤ k →
        (valueF k text position).isSome := by
      intro text hlen position k hk
      obtain ⟨k', rfl⟩ : ∃ m, k = m + 1 := ⟨k - 1, by omega⟩
      rw [valueF]
      split
      · simp
      · have hlist : (listF k' text position).isSome :=
          Hli text hlen position k' (by omega)
        split
        · rename_i hnone
          rw [hnone] at hlist
          simp at hlist
        · simp
        · have hobj : (objectF k' text position).isSome :=
            Hob text hlen position k' (by omega)
          split
          · rename_i hnone
            rw [hnone] at hobj
            simp at hobj
          · simp
          · simp
    intro text hlen position
    exact ⟨Hkvp text hlen position,
           fun acc k hk => Hkpl text hlen position acc k hk,
           fun acc k hk => Hll text hlen position acc k hk,
           Hli text hlen position,
           Hob text hlen position,
           Hkvps text hlen position,
           Hval text hlen position⟩

/-! ### Claim theorems -/

/-- Claim C1 (code bug, evaluation at the failing input): the claimed
offset invariant fails for `single_quoted_string`.  On input `'a'` at
offset 0 the rule succeeds with empty remaining text — it consumed all
3 bytes — yet returns offset 2, not 0 + 3: line 107 of the source
advances the text past the closing quote (`last_char.0 + 1`) but the
offset only to it (`position + last_char.0`). -/
theorem c1_single_quoted_string_offset_mismatch :
    single_quoted_string ("'a'".toList) 0 = .ok ([], 2, ['a']) ∧
    utf8Len ("'a'".toList) - utf8Len ([] : List Char) = 3 ∧
    (2 : Nat) ≠ 0 + 3 := by
  decide

/-- Claim C2 (code bug, evaluation at the failing input): when the
identifier runs to the end of the input, the claim says the whole span is
returned; the code's `None` branch (lines 53-57) instead consumes and
returns only the first character: `identifier "abc"` yields identifier
`"a"` with remaining text `"bc"`, not identifier `"abc"`. -/
theorem c2_identifier_at_end_of_input :
    identifier ("abc".toList) 0 = .ok ("bc".toList, 1, ['a']) ∧
    (['a'] : List Char) ≠ "abc".toList := by
  decide

/-- Claim C3 (code bug, evaluation at the failing input): a list body with
a dangling `;` before `]` is claimed to be tolerated, but the `?` on line
235 propagates the failed `value` attempt after the separator, so
`list "['a';]"` fails with `NoValueFound` (at the code's — lagging, see C1
— offset 4) instead of succeeding with the one-element list.  Fuel 20
exceeds the adequate bound `2 * 6 + 2` proved below, so this is the
rule's real result. -/
theorem c3_list_dangling_separator_fails :
    listF 20 ("['a';]".toList) 0 = some (.error (.NoValueFound 4)) := by
  rfl

/-- Claim C4 (code bug, evaluation at the failing input): parsing `"key"`
does fail with `ExpectedLiteralNotFound` for `=`, but at offset 1, not 3:
because of the end-of-input identifier bug (C2) only `"k"` is consumed
before the `=` probe. -/
theorem c4_missing_equals_error_offset :
    parse_option_string "key" = .error (.ExpectedLiteralNotFound 1 ['=']) ∧
    (1 : Nat) ≠ 3 :=
  ⟨by rfl, by decide⟩

/-- Claim C5 (code bug): the first-character-not-alphabetic error carries
the hardcoded offset `0` (line 35 of the source), not the cursor's current
absolute offset — e.g. at absolute offset 5 on `"@"` the carried offset is
still 0.  The claim's other half is true: on empty remaining text the
error is `PrematureEndOfText` at the current offset. -/
theorem c5_first_char_error_offset_is_zero :
    (∀ (rest : List Char) (position : Nat) (c : Char), isAlphabetic c = false →
      identifier (c :: rest) position =
        .error (.IdentifiersFirstCharacterNotAlphabetic 0)) ∧
    (∀ position, identifier [] position = .error (.PrematureEndOfText position)) ∧
    identifier ['@'] 5 = .error (.IdentifiersFirstCharacterNotAlphabetic 0) := by
  refine ⟨?_, fun position => rfl, by decide⟩
  intro rest position c h
  simp [identifier, h]

/-- Witness for C5: the hypothesis of the universal part discharged at the
concrete input `identifier "@"` at absolute offset 5. -/
theorem c5_first_char_error_offset_is_zero_witness :
    identifier ('@' :: []) 5 = .error (.IdentifiersFirstCharacterNotAlphabetic 0) :=
  c5_first_char_error_offset_is_zero.1 [] 5 '@' (by decide)

/-- Claim C6 as amended: `single_quoted_string` on `"'unterminated"` fails
with `PrematureEndOfText` carrying offset 12 — the byte offset of the last
examined code point (the final `d`), which the running `err_position`
tracks — not 13, the byte length of the input. -/
theorem c6_unterminated_offset_last_examined :
    single_quoted_string ("'unterminated".toList) 0 =
      .error (.PrematureEndOfText 12) := by
  decide

/-- Counterexample to claim C6 as stated: the carried offset is not 13,
the byte length of the input. -/
theorem c6_unterminated_not_at_input_length :
    single_quoted_string ("'unterminated".toList) 0 ≠
      .error (.PrematureEndOfText 13) := by
  decide

/-- Claim C7: `value` tries `single_quoted_string`, `list`, `object`, in
that order, all on the same starting cursor, and when all three fail it
returns `NoValueFound` carrying the original starting offset; in
particular `"key=@"` fails with `NoValueFound` at 4, the offset of `@`. -/
theorem c7_value_ordered_try :
    (∀ (fuel : Nat) (text : List Char) (position : Nat)
      (e1 e2 e3 : ParseError),
      single_quoted_string text position = .error e1 →
      listF fuel text position = some (.error e2) →
      objectF fuel text position = some (.error e3) →
      valueF (fuel + 1) text position =
        some (.error (.NoValueFound position))) ∧
    parse_option_string "key=@" = .error (.NoValueFound 4) := by
  constructor
  · intro fuel text position e1 e2 e3 h1 h2 h3
    simp only [valueF, h1, h2, h3]
  · rfl

/-- Witness for C7: the three failure hypotheses discharged at the
concrete cursor `"@"` at offset 4 (each alternative fails with a
literal-not-found for its opening token). -/
theorem c7_value_ordered_try_witness :
    valueF 6 ("@".toList) 4 = some (.error (.NoValueFound 4)) :=
  c7_value_ordered_try.1 5 ("@".toList) 4
    (.ExpectedLiteralNotFound 4 ['\''])
    (.ExpectedLiteralNotFound 4 ['['])
    (.ExpectedLiteralNotFound 4 ['('])
    (by decide) (by rfl) (by rfl)

/-- Claim C8: `"a='b';c='d';"` and `"a='b';c='d'"` both parse to the same
two-pair result, the pairs `a = 'b'` and `c = 'd'` in source order (and
with the same, empty, remaining text). -/
theorem c8_trailing_separator_equal_results :
    parse_option_string "a='b';c='d';" =
      .ok ([], [("a".toList, .StringValue ("b".toList)),
                ("c".toList, .StringValue ("d".toList))]) ∧
    parse_option_string "a='b';c='d'" =
      .ok ([], [("a".toList, .StringValue ("b".toList)),
                ("c".toList, .StringValue ("d".toList))]) :=
  ⟨by rfl, by rfl⟩

/-- Claim C9: in a string body a backslash followed by `'` or `\` appends
that character literally, a backslash followed by any other code point
fails with `UnknownEscapedSymbol`, end of input right after a backslash
fails with `PrematureEndOfText`; and `"key='a\'b\\c'"` parses to the
decoded five-character string `a'b\c`. -/
theorem c9_escaped_char_handling :
    (∀ (position : Nat) (c : Char) (rest : List Char),
      c = '\'' ∨ c = '\\' → escaped_char (c :: rest) position = .ok (c, rest)) ∧
    (∀ (position : Nat) (c : Char) (rest : List Char),
      c ≠ '\'' → c ≠ '\\' →
      escaped_char (c :: rest) position =
        .error (.UnknownEscapedSymbol position c)) ∧
    (∀ position,
      escaped_char [] position = .error (.PrematureEndOfText position)) ∧
    parse_option_string "key='a\\'b\\\\c'" =
      .ok ([], [("key".toList, .StringValue ("a'b\\c".toList))]) := by
  refine ⟨?_, ?_, fun position => rfl, by rfl⟩
  · intro position c rest h
    simp [escaped_char, h]
  · intro position c rest h1 h2
    simp only [escaped_char]
    rw [if_neg]
    tauto

/-- Witness for C9: the unknown-escape hypotheses discharged at the
concrete character `q` at offset 3. -/
theorem c9_escaped_char_handling_witness :
    escaped_char ['q'] 3 = .error (.UnknownEscapedSymbol 3 'q') :=
  c9_escaped_char_handling.2.1 3 'q' [] (by decide) (by decide)

/-- Claim C10: the parser terminates on every finite input — fuel linear
in the input length (`2 * length + 3`) is always enough for the fuelled
entry point to complete, by `fuel_adequate`: every repetition step
consumes at least the one-byte `;` and every descent into `list`/`object`
consumes at least one byte before recursing. -/
theorem c10_parser_terminates : ∀ (s : String),
    (parse_option_stringF (2 * s.toList.length + 3) s.toList).isSome := by
  intro s
  have h := (fuel_adequate s.toList.length s.toList (Nat.le_refl _) 0).2.2.2.2.2.1
    (2 * s.toList.length + 3) (Nat.le_refl _)
  rw [parse_option_stringF]
  split
  · rename_i hnone
    rw [hnone] at h
    simp at h
  · simp
  · simp

end OptionStringParsing
